import Mathlib

/-!
Verification of the bundle lifecycle core of swupd-client (the C file holding
`list_installable_bundles`, `remove_bundle`, `add_subscriptions`,
`install_bundles` and `install_bundles_frontend`).

The C source is embedded shallowly: the per-operation state machines become
Lean functions over an explicit environment `Env` that records the outcome of
every collaborator call (initialization, version discovery, manifest loads,
staging), and machine effects (unlinks, renames, the sync barrier, script
execution) are recorded as explicit outputs.  Collaborators that are only
called from this file (`consolidate_files`, `deduplicate_files_from_manifest`,
`recurse_manifest`, `increment_retries`, `verify_fix_path`,
`search_bundle_in_manifest`, `search_file_in_manifest`) are modelled from the
spec, as marked in their doc comments.
-/

/-- File entry of a manifest: path, content hash, the OS version that last
changed it, flags, and the transient staging path set by `do_staging`
(spec section 3, "File entry"). -/
structure SwFile where
  filename : String
  hash : String
  last_change : Nat
  is_deleted : Bool := false
  do_not_update : Bool := false
  staging : Option String := none
  deriving DecidableEq

/-- Manifest of a bundle (or the MoM): component name, publication version,
file list, includes, and (for a MoM) the pointer entries of `manifests`
(spec section 3, "Manifest"). The `submanifests` field of the C struct is not
stored: it is the result of `recurse_manifest`, threaded explicitly. -/
structure Manifest where
  component : String
  version : Nat
  files : List SwFile := []
  includes : List String := []
  manifests : List SwFile := []
  deriving DecidableEq

/-- Modelled from the spec: the numeric error codes exposed to the front end
(spec section 6).  Their numeric values live in a header that is not under
src/; only distinctness matters to the claims, so distinct values are fixed
here. -/
def ECURRENT_VERSION : Int := 2

def EBUNDLE_REMOVE : Int := 3

def EMOM_NOTFOUND : Int := 4

def EBUNDLE_NOT_TRACKED : Int := 13

def EBUNDLE_INSTALL : Int := 18

def ERECURSE_MANIFEST : Int := 19

def EXIT_FAILURE : Int := 1

/-- Modelled from the spec: `MAX_TRIES`, the retry bound of the manifest
loader (spec section 4.3).  Its value lives in a header not under src/; the
claims depend only on it being a fixed positive constant. -/
def MAX_TRIES : Nat := 3

/-- Environment of one bundle operation: the deterministic outcome of every
collaborator call the C code makes.  `initRet` is `swupd_init`'s return,
`tracked` the file names in the tracked-bundles directory (so
`is_tracked_bundle` is membership), `load_sub` the result of loading one
bundle's manifest (used by `recurse_manifest` and `load_bundle_manifest`),
`load_attempt b k` the result of the k-th `load_manifest` attempt for bundle
`b` inside `add_subscriptions` (attempts are numbered per bundle occurrence),
`stageOk` whether `do_staging` succeeds on a path, `fixOk` whether the
repair part of `verify_fix_path` succeeds, and `ignore` the global ignore
predicate. -/
structure Env where
  initRet : Int
  networkOk : Bool
  currentVersion : Option Nat
  mom : Option Manifest
  tracked : List String
  load_sub : String → Option Manifest
  load_attempt : String → Nat → Option Manifest
  stageOk : String → Bool
  fixOk : String → Bool
  ignore : String → Bool

/-- Membership test of the tracked-bundles directory, the embedding of
`is_tracked_bundle` (stat of the marker file). -/
def is_tracked_bundle (env : Env) (b : String) : Bool :=
  b ∈ env.tracked

/-- Character-list view of a string, used for all path and hash comparisons:
`strcmp`'s lexicographic byte order is the lexicographic order on the
character sequences. -/
def pkey (s : String) : List Char :=
  s.data

/-- Strings with equal character data are equal. -/
theorem pkey_inj {s t : String} (h : pkey s = pkey t) : s = t := by
  cases s
  cases t
  exact congrArg String.mk h

/-- Sort key of `consolidate_files`: path ascending, version descending,
deleted entries last, hash ascending (spec section 4.5 step 1).  The key maps
into a lexicographic product of linear orders; `fileLe_iff` below unfolds it
to the literal four-level comparison. -/
def keyOf (f : SwFile) : Lex (List Char × Lex ((Natᵒᵈ) × Lex (Nat × List Char))) :=
  toLex (pkey f.filename, toLex (OrderDual.toDual f.last_change,
    toLex ((if f.is_deleted then 1 else 0), pkey f.hash)))

/-- Total preorder used by the consolidation sort. -/
def fileLe (a b : SwFile) : Prop :=
  keyOf a ≤ keyOf b

instance : DecidableRel fileLe := fun a b =>
  inferInstanceAs (Decidable (keyOf a ≤ keyOf b))

instance : IsTotal SwFile fileLe :=
  ⟨fun a b => le_total (keyOf a) (keyOf b)⟩

instance : IsTrans SwFile fileLe :=
  ⟨fun _ _ _ h1 h2 => le_trans h1 h2⟩

/-- Unfolding of `fileLe` into the four sort keys of the spec: path ASC,
version DESC, is_deleted ASC (deleted last), hash ASC. -/
theorem fileLe_iff (a b : SwFile) :
    fileLe a b ↔
      pkey a.filename < pkey b.filename ∨ (pkey a.filename = pkey b.filename ∧
        (b.last_change < a.last_change ∨ (b.last_change = a.last_change ∧
          ((if a.is_deleted then 1 else 0) < (if b.is_deleted then (1 : Nat) else 0) ∨
            ((if a.is_deleted then (1 : Nat) else 0) = (if b.is_deleted then 1 else 0) ∧
              pkey a.hash ≤ pkey b.hash))))) := by
  simp only [fileLe, keyOf, Prod.Lex.le_iff, OrderDual.toDual_lt_toDual,
    OrderDual.toDual_inj]
  constructor
  · rintro (h | ⟨he, (h2 | ⟨he2, h3⟩)⟩)
    · exact Or.inl h
    · exact Or.inr ⟨he, Or.inl h2⟩
    · exact Or.inr ⟨he, Or.inr ⟨he2.symm, h3⟩⟩
  · rintro (h | ⟨he, (h2 | ⟨he2, h3⟩)⟩)
    · exact Or.inl h
    · exact Or.inr ⟨he, Or.inl h2⟩
    · exact Or.inr ⟨he, Or.inr ⟨he2.symm, h3⟩⟩

/-- Filename-only comparison, the comparator `file_sort_filename` (strcmp on
filenames) that `remove_bundle` passes to `list_sort`. -/
def pathLe (a b : SwFile) : Prop :=
  pkey a.filename ≤ pkey b.filename

instance : DecidableRel pathLe := fun a b =>
  inferInstanceAs (Decidable (pkey a.filename ≤ pkey b.filename))

instance : IsTotal SwFile pathLe :=
  ⟨fun a b => le_total (pkey a.filename) (pkey b.filename)⟩

instance : IsTrans SwFile pathLe :=
  ⟨fun _ _ _ h1 h2 => le_trans h1 h2⟩

/-- The embedding of `list_sort(files, file_sort_filename)`. -/
def sort_files_by_filename (l : List SwFile) : List SwFile :=
  List.insertionSort pathLe l

/-- Helper of `dropDupPaths`: given the entry `cur` just kept, drop the
following entries with the same path and keep the first entry of each later
run of equal paths. -/
def dropDupAux (cur : SwFile) : List SwFile → List SwFile
  | [] => []
  | g :: rest =>
    if g.filename = cur.filename then dropDupAux cur rest
    else g :: dropDupAux g rest

/-- Walk a (sorted) sequence and keep the first entry of each distinct path
(spec section 4.5 step 2). -/
def dropDupPaths : List SwFile → List SwFile
  | [] => []
  | f :: rest => f :: dropDupAux f rest

/-- Modelled from the spec: `consolidate_files` (not under src/) — sort by
(path ASC, version DESC, is_deleted ASC, hash ASC), then keep the first entry
for each distinct path (spec section 4.5). -/
def consolidate_files (fs : List SwFile) : List SwFile :=
  dropDupPaths (List.insertionSort fileLe fs)

/-- Modelled from the spec: `files_from_bundles` (not under src/) —
concatenate all submanifests' file lists preserving input order
(spec section 4.5). -/
def files_from_bundles (subms : List Manifest) : List SwFile :=
  (subms.map Manifest.files).flatten

/-- Modelled from the spec: `deduplicate_files_from_manifest` (not under
src/) — both lists sorted ascending by path; walk them in lock-step and
remove from the first list every entry whose path occurs in the reference
list (spec section 4.5).  The lock-step advance of the reference pointer is
the `dropWhile` over the strictly smaller reference paths. -/
def dedup : List SwFile → List SwFile → List SwFile
  | [], _ => []
  | b :: bs, rs =>
    let rs2 := rs.dropWhile (fun r => decide (pkey r.filename < pkey b.filename))
    match rs2 with
    | [] => b :: dedup bs []
    | r :: _ =>
      if b.filename = r.filename then dedup bs rs2
      else b :: dedup bs rs2

/-- Modelled from the spec: `search_bundle_in_manifest` (not under src/) —
find the pointer entry for a bundle name in the MoM's `manifests` list. -/
def search_bundle_in_manifest (mom : Manifest) (name : String) : Option SwFile :=
  mom.manifests.find? (fun f => f.filename = name)

/-- Result of `recurse_manifest(mom, NULL)`: `fuelOut` is the model's marker
for a traversal that did not finish within the given fuel, `loadFail` is the
C function's NULL return (a required sub-manifest could not be loaded), and
`ok` carries the loaded submanifests in discovery order. -/
inductive RecRes where
  | fuelOut
  | loadFail
  | ok (subms : List Manifest)
  deriving DecidableEq

/-- Modelled from the spec: `recurse_manifest(mom, NULL)` (not under src/) —
load the sub-manifest of every currently subscribed bundle and of every
bundle transitively referenced via `includes`, with a visited set keyed by
component name; any required sub-manifest that cannot be loaded fails the
whole resolution (spec section 4.4). -/
def recurseAll (env : Env) (mom : Manifest) :
    Nat → List String → List String → List Manifest → RecRes
  | _, [], _, acc => .ok acc
  | 0, _ :: _, _, _ => .fuelOut
  | fuel + 1, b :: rest, visited, acc =>
    if b ∈ visited then recurseAll env mom fuel rest visited acc
    else
      match search_bundle_in_manifest mom b, env.load_sub b with
      | some _, some m =>
        recurseAll env mom fuel (rest ++ m.includes) (b :: visited) (acc ++ [m])
      | _, _ => .loadFail

/-- Modelled from the spec: `recurse_manifest(mom, bundle_name)` (not under
src/) — singleton mode used by `remove`: return just the sub-manifest of the
named bundle, with no transitive expansion (spec section 4.4). -/
def recurseOne (env : Env) (mom : Manifest) (name : String) : Option Manifest :=
  if (search_bundle_in_manifest mom name).isSome then env.load_sub name else none

/-- Embedding of `load_bundle_manifest`: reload the MoM for the version, run
the singleton `recurse_manifest` for the bundle, return the sub-manifest.
`EMOM_NOTFOUND` if the MoM cannot be loaded, `ERECURSE_MANIFEST` if the
sub-manifest cannot. -/
def load_bundle_manifest (env : Env) (name : String) : Except Int Manifest :=
  match env.mom with
  | none => .error EMOM_NOTFOUND
  | some mom =>
    match recurseOne env mom name with
    | none => .error ERECURSE_MANIFEST
    | some m => .ok m

/-- Embedding of `is_included`: whether `bundle_name` occurs in the
`includes` list of any of the loaded submanifests. -/
def is_included (bundle_name : String) (subms : List Manifest) : Bool :=
  subms.any (fun b => b.includes.any (fun i => i = bundle_name))

/-- Observable outcome of one `remove_bundle` run: the returned code, the
paths unlinked from the filesystem, and whether the tracked-bundles marker
file was removed.  The ghost fields `restFiles` (all files of the remaining
submanifests, before consolidation) and `bundleFiles` (the file list of the
removed bundle's manifest, as loaded) record the intermediate lists the
claims speak about; they are `[]` on every abort path. -/
structure RemoveOutcome where
  ret : Int
  unlinked : List String
  markerRemoved : Bool
  restFiles : List SwFile := []
  bundleFiles : List SwFile := []
  deriving DecidableEq

/-- Mutating tail of `remove_bundle` (steps after all guards passed):
consolidate the retained submanifests, sort the removed bundle's file list by
filename, deduplicate it against the consolidated retain list, unlink each
surviving entry, remove the marker file. -/
def remove_stage2 (bm : Manifest) (subms : List Manifest) : RemoveOutcome :=
  let retain := consolidate_files (files_from_bundles subms)
  let d := dedup (sort_files_by_filename bm.files) retain
  { ret := 0
    unlinked := d.map SwFile.filename
    markerRemoved := true
    restFiles := files_from_bundles subms
    bundleFiles := bm.files }

/-- Embedding of `remove_bundle`.  The guards run in source order:
`swupd_init` failure returns its code; `"os-core"` and untracked names are
rejected with `EBUNDLE_NOT_TRACKED`; version discovery failure is
`ECURRENT_VERSION`; a MoM load failure is `EMOM_NOTFOUND`; a name with no MoM
pointer is `EBUNDLE_REMOVE`; `read_subscriptions_alt` plus
`unload_tracked_bundle` leave the tracked set minus the removed name (the
name is present, the tracked guard passed on the same directory); a failed
submanifest resolution is `ERECURSE_MANIFEST`; a name still included by a
remaining bundle is `EBUNDLE_REMOVE`; then `remove_stage2` mutates.  `fuel`
bounds the spec-modelled include traversal only. -/
def remove_bundle (env : Env) (fuel : Nat) (name : String) : Option RemoveOutcome :=
  if env.initRet ≠ 0 then
    some { ret := env.initRet, unlinked := [], markerRemoved := false }
  else if name = "os-core" then
    some { ret := EBUNDLE_NOT_TRACKED, unlinked := [], markerRemoved := false }
  else if ¬ is_tracked_bundle env name then
    some { ret := EBUNDLE_NOT_TRACKED, unlinked := [], markerRemoved := false }
  else
    match env.currentVersion with
    | none => some { ret := ECURRENT_VERSION, unlinked := [], markerRemoved := false }
    | some _ =>
      match env.mom with
      | none => some { ret := EMOM_NOTFOUND, unlinked := [], markerRemoved := false }
      | some mom =>
        if (search_bundle_in_manifest mom name).isNone then
          some { ret := EBUNDLE_REMOVE, unlinked := [], markerRemoved := false }
        else
          match recurseAll env mom fuel (env.tracked.erase name) [] [] with
          | .fuelOut => none
          | .loadFail =>
            some { ret := ERECURSE_MANIFEST, unlinked := [], markerRemoved := false }
          | .ok subms =>
            if is_included name subms then
              some { ret := EBUNDLE_REMOVE, unlinked := [], markerRemoved := false }
            else
              match load_bundle_manifest env name with
              | .error e =>
                some { ret := e, unlinked := [], markerRemoved := false }
              | .ok bm => some (remove_stage2 bm subms)

/-- Modelled from the spec: `increment_retries` (not under src/) — between
attempts the loader sleeps `timeout` seconds then doubles `timeout` (spec
section 4.3).  The sleep itself is unobservable here and the small uniform
random jitter added to the doubled timeout is modelled as zero. -/
def increment_retries (retries timeout : Nat) : Nat × Nat :=
  (retries + 1, 2 * timeout)

/-- Body of the `retry_manifest_download` loop of `add_subscriptions`: try
`load_manifest`; on failure, while `retries < MAX_TRIES`, run
`increment_retries` and try again.  Returns the result together with the
final `retries`, the final `timeout`, and the number of attempts made.
`budget` is a structural bound on the recursion; the caller `retryLoad`
passes `MAX_TRIES - retries`, which the `retries < MAX_TRIES` guard can never
outrun, so the `budget = 0` fallback never fires from `retryLoad`. -/
def retry_attempts (env : Env) (b : String) (budget k retries timeout : Nat) :
    Option Manifest × Nat × Nat × Nat :=
  match env.load_attempt b k with
  | some m => (some m, retries, timeout, 1)
  | none =>
    if retries < MAX_TRIES then
      match budget with
      | 0 => (none, retries, timeout, 1)
      | budget' + 1 =>
        let p := increment_retries retries timeout
        let r := retry_attempts env b budget' (k + 1) p.1 p.2
        (r.1, r.2.1, r.2.2.1, r.2.2.2 + 1)
    else (none, retries, timeout, 1)

/-- One full run of the `retry_manifest_download` loop for bundle `b`,
starting from the current shared `retries` and `timeout` values of the
enclosing `add_subscriptions` invocation. -/
def retryLoad (env : Env) (b : String) (retries timeout : Nat) :
    Option Manifest × Nat × Nat × Nat :=
  retry_attempts env b (MAX_TRIES - retries) 0 retries timeout

/-- Result of one `add_subscriptions` invocation: the tri-state return
(`-1` error, `1` no new subscriptions, `0` new subscriptions), the
subscription set after the call, and a ghost log of `(bundle, attempts)`
pairs, one per `load_manifest` retry loop run, in execution order. -/
structure SubsRes where
  ret : Int
  subs : List String
  log : List (String × Nat) := []
  deriving DecidableEq

/-- Loop body of `add_subscriptions` over the requested bundle list.  `rec`
stands for the recursive call on an `includes` list (which the C code makes
with fresh local `retries = 0`, `timeout = 10` and its own `new_bundles`
flag); the model's fuel is spent only on that descent, in
`add_subscriptions` below.  For each bundle: skip names without a MoM
pointer; run the retry loop (its `retries`/`timeout` are shared across the
whole invocation); on exhausted retries return `-1`; recurse on a non-empty
`includes` list first, propagating `-1` and folding a `0` return into the
`new_bundles` flag; then subscribe the bundle unless it is tracked or
already subscribed. -/
def addSubsLoop (env : Env) (mom : Manifest)
    (rec : List String → List String → Option SubsRes) :
    List String → List String → Bool → Nat → Nat → Option SubsRes
  | [], subs, nb, _, _ => some { ret := if nb then 0 else 1, subs := subs }
  | b :: rest, subs, nb, retries, timeout =>
    match search_bundle_in_manifest mom b with
    | none => addSubsLoop env mom rec rest subs nb retries timeout
    | some _ =>
      match retryLoad env b retries timeout with
      | (none, _, _, n) => some { ret := -1, subs := subs, log := [(b, n)] }
      | (some m, retries2, timeout2, n) =>
        if m.includes.isEmpty then
          match addSubsLoop env mom rec rest
              (if b ∈ env.tracked ∨ b ∈ subs then subs else subs ++ [b])
              (if b ∈ env.tracked ∨ b ∈ subs then nb else true)
              retries2 timeout2 with
          | none => none
          | some r2 => some { ret := r2.ret, subs := r2.subs, log := (b, n) :: r2.log }
        else
          match rec m.includes subs with
          | none => none
          | some r =>
            if r.ret = -1 then
              some { ret := -1, subs := r.subs, log := (b, n) :: r.log }
            else
              match addSubsLoop env mom rec rest
                  (if b ∈ env.tracked ∨ b ∈ r.subs then r.subs else r.subs ++ [b])
                  (if b ∈ env.tracked ∨ b ∈ r.subs then
                    (if r.ret = 0 then true else nb) else true)
                  retries2 timeout2 with
              | none => none
              | some r2 =>
                some { ret := r2.ret, subs := r2.subs, log := (b, n) :: (r.log ++ r2.log) }

/-- Embedding of `add_subscriptions`.  The C function recurses into a loaded
manifest's `includes` before checking whether the bundle is tracked or
subscribed; the model charges one unit of `fuel` per such descent and
returns `none` when the fuel runs out, so a run of the C code that falls
into unbounded recursion is exactly a model run that is `none` at every
fuel.  A fresh invocation starts with `subs` as the current subscription
set, `nb = false`, `retries = 0` and `timeout = 10`. -/
def add_subscriptions (env : Env) (mom : Manifest) :
    Nat → List String → List String → Bool → Nat → Nat → Option SubsRes
  | 0, bundles, subs, nb, retries, timeout =>
    addSubsLoop env mom (fun _ _ => none) bundles subs nb retries timeout
  | fuel + 1, bundles, subs, nb, retries, timeout =>
    addSubsLoop env mom
      (fun incl s => add_subscriptions env mom fuel incl s false 0 10)
      bundles subs nb retries timeout

/-- Observable events of an install run, in execution order: a successful
`do_staging` of a path, a staging via `verify_fix_path`, an atomic
`rename_staged_file_to_final` onto a final path, the model marker for a
rename applied to a NULL `search_file_in_manifest` result, the `sync`
barrier, and `run_scripts`. -/
inductive Event where
  | stage (p : String)
  | fix (p : String)
  | rename (p : String)
  | renameNull
  | sync
  | scripts
  deriving DecidableEq

/-- The skip condition of both install loops:
`file->is_deleted || file->do_not_update || ignore(file)`. -/
def skipFile (env : Env) (f : SwFile) : Bool :=
  f.is_deleted || f.do_not_update || env.ignore f.filename

/-- Modelled from the spec: `search_file_in_manifest` (not under src/) —
look a path up in the MoM's consolidated file list (passed here as the list
itself rather than the carrying manifest). -/
def search_file_in_manifest (momFiles : List SwFile) (fname : String) : Option SwFile :=
  momFiles.find? (fun f => f.filename = fname)

/-- Modelled from the spec: `verify_fix_path` (not under src/) — walk the
path chain of `fname`, staging and renaming every missing component from its
canonical entry in the MoM's consolidated file list (spec section 4.6); the
install code's comment "This was staged by verify_fix_path" records that the
target file itself is staged too, so success requires the target to have an
entry in `momFiles`; `env.fixOk` models the filesystem side of the repair. -/
def verify_fix_path (env : Env) (fname : String) (momFiles : List SwFile) : Bool :=
  (momFiles.any (fun g => g.filename = fname)) && env.fixOk fname

/-- First install loop (staging): for each non-skipped file, `do_staging`,
on failure `verify_fix_path`, on failure again abort (the C code returns
`EBUNDLE_INSTALL`).  Returns the updated file list — `do_staging` sets the
`staging` field, `verify_fix_path` does not — together with the staging
events; on abort the error carries the events emitted so far. -/
def stageLoop (env : Env) (momFiles : List SwFile) :
    List SwFile → Except (List Event) (List SwFile × List Event)
  | [] => .ok ([], [])
  | f :: rest =>
    if skipFile env f then
      match stageLoop env momFiles rest with
      | .ok (l, ev) => .ok (f :: l, ev)
      | .error ev => .error ev
    else if env.stageOk f.filename then
      match stageLoop env momFiles rest with
      | .ok (l, ev) =>
        .ok ({ f with staging := some ("staged/" ++ f.hash) } :: l,
          .stage f.filename :: ev)
      | .error ev => .error (.stage f.filename :: ev)
    else if verify_fix_path env f.filename momFiles then
      match stageLoop env momFiles rest with
      | .ok (l, ev) => .ok (f :: l, .fix f.filename :: ev)
      | .error ev => .error (.fix f.filename :: ev)
    else .error []

/-- Second install loop (rename): for each non-skipped file, if its
`staging` field is unset the file is looked up again in the MoM's
consolidated files ("This was staged by verify_fix_path"), and
`rename_staged_file_to_final` is applied to the lookup result; a NULL lookup
result is recorded as `Event.renameNull`. -/
def renameLoop (env : Env) (momFiles : List SwFile) : List SwFile → List Event
  | [] => []
  | f :: rest =>
    if skipFile env f then renameLoop env momFiles rest
    else
      match (if f.staging.isNone then search_file_in_manifest momFiles f.filename
             else some f) with
      | none => .renameNull :: renameLoop env momFiles rest
      | some g => .rename g.filename :: renameLoop env momFiles rest

/-- Observable outcome of one `install_bundles` run: the returned code, the
event trace, and a ghost copy of the consolidated target file list
(`to_install_files`; `[]` on the paths that abort before computing it). -/
structure InstallOut where
  ret : Int
  trace : List Event
  targets : List SwFile := []
  deriving DecidableEq

/-- Embedding of `install_bundles`.  Step 1: `add_subscriptions`; any
non-zero tri-state return (`-1` or `1`) surfaces as `EBUNDLE_INSTALL`.
Then resolve and consolidate the target set; step 2 (clearing `download/`
and fetching packs) has no observable in this model; step 3 re-reads the
subscriptions — "Add tracked bundles": the tracked names are appended to
the subscription set — and resolves the full submanifest set whose
consolidation is the current file list used by `verify_fix_path` and the
rename pass; step 4 stages then renames; then the `sync` barrier and step 5
`run_scripts`.  (`subscription_versions_from_MoM` only sets per-subscription
versions, which the load oracles of `Env` absorb.) -/
def install_bundles (env : Env) (bundles : List String) (mom : Manifest)
    (fuel : Nat) : Option InstallOut :=
  match add_subscriptions env mom fuel bundles [] false 0 10 with
  | none => none
  | some r =>
    if r.ret ≠ 0 then some { ret := EBUNDLE_INSTALL, trace := [] }
    else
      match recurseAll env mom fuel r.subs [] [] with
      | .fuelOut => none
      | .loadFail => some { ret := ERECURSE_MANIFEST, trace := [] }
      | .ok tib =>
        let to_install_files := consolidate_files (files_from_bundles tib)
        let subs2 := r.subs ++ env.tracked.filter (fun t => decide (t ∉ r.subs))
        match recurseAll env mom fuel subs2 [] [] with
        | .fuelOut => none
        | .loadFail => some { ret := ERECURSE_MANIFEST, trace := [] }
        | .ok subms =>
          let momFiles := consolidate_files (files_from_bundles subms)
          match stageLoop env momFiles to_install_files with
          | .error ev =>
            some { ret := EBUNDLE_INSTALL, trace := ev, targets := to_install_files }
          | .ok (staged, ev) =>
            some { ret := 0,
                   trace := ev ++ renameLoop env momFiles staged ++ [.sync, .scripts],
                   targets := to_install_files }

/-- Embedding of `install_bundles_frontend`: init, version discovery, MoM
load (failure is `EMOM_NOTFOUND`), then `install_bundles` on the bundle list
(which `list_prepend_data` builds in reverse order). -/
def install_bundles_frontend (env : Env) (fuel : Nat) (bundles : List String) :
    Option InstallOut :=
  if env.initRet ≠ 0 then some { ret := env.initRet, trace := [] }
  else
    match env.currentVersion with
    | none => some { ret := ECURRENT_VERSION, trace := [] }
    | some _ =>
      match env.mom with
      | none => some { ret := EMOM_NOTFOUND, trace := [] }
      | some mom => install_bundles env bundles.reverse mom fuel

/-- Embedding of `list_installable_bundles`: init, network check, version
discovery, MoM load, then print the component of each pointer entry.  When
the MoM cannot be loaded the C code executes `return ret` where `ret` still
holds `swupd_init`'s successful `0`, so the operation returns `0` with
nothing listed. -/
def list_installable_bundles (env : Env) : Int × List String :=
  if env.initRet ≠ 0 then (env.initRet, [])
  else if ¬ env.networkOk then (EXIT_FAILURE, [])
  else
    match env.currentVersion with
    | none => (ECURRENT_VERSION, [])
    | some _ =>
      match env.mom with
      | none => (0, [])
      | some mom => (0, mom.manifests.map SwFile.filename)


/-- Strict path comparison. -/
def pathLt (a b : SwFile) : Prop :=
  pkey a.filename < pkey b.filename

/-- The consolidation order refines the path order. -/
theorem fileLe_pathLe {a b : SwFile} (h : fileLe a b) : pathLe a b := by
  rcases (fileLe_iff a b).mp h with h1 | ⟨h2, _⟩
  · exact le_of_lt h1
  · exact le_of_eq h2

/-- Strictly smaller path keys give distinct filenames. -/
theorem pathLt_ne {a b : SwFile} (h : pathLt a b) : a.filename ≠ b.filename :=
  fun he => absurd (congrArg pkey he) (ne_of_lt h)

/-- The consolidation sort leaves the list pairwise ordered by path. -/
theorem pairwise_pathLe_sort (fs : List SwFile) :
    (List.insertionSort fileLe fs).Pairwise pathLe :=
  (List.sorted_insertionSort fileLe fs).imp fun h => fileLe_pathLe h

/-- The filename sort of `remove_bundle` leaves the list pairwise ordered by
path. -/
theorem pairwise_pathLe_sort_files (fs : List SwFile) :
    (sort_files_by_filename fs).Pairwise pathLe :=
  List.sorted_insertionSort pathLe fs

/-- The duplicate-path walk only drops entries. -/
theorem dropDupAux_sublist (l : List SwFile) :
    ∀ cur, (dropDupAux cur l).Sublist l := by
  induction l with
  | nil => intro cur; simp [dropDupAux]
  | cons g rest ih =>
    intro cur
    by_cases hg : g.filename = cur.filename
    · simpa [dropDupAux, if_pos hg] using (ih cur).cons g
    · simpa [dropDupAux, if_neg hg] using (ih g).cons₂ g

/-- The duplicate-path walk on a path-sorted tail yields strictly increasing
paths. -/
theorem dropDupAux_pairwise (l : List SwFile) :
    ∀ cur, (cur :: l).Pairwise pathLe →
      (cur :: dropDupAux cur l).Pairwise pathLt := by
  induction l with
  | nil => intro cur _; simp [dropDupAux]
  | cons g rest ih =>
    intro cur h
    rcases List.pairwise_cons.mp h with ⟨hcur, hgr⟩
    by_cases hg : g.filename = cur.filename
    · have hcr : (cur :: rest).Pairwise pathLe :=
        List.pairwise_cons.mpr ⟨fun x hx => hcur x (List.mem_cons_of_mem g hx),
          (List.pairwise_cons.mp hgr).2⟩
      simpa [dropDupAux, if_pos hg] using ih cur hcr
    · have hcg : pathLt cur g := by
        refine lt_of_le_of_ne (hcur g (List.mem_cons_self g rest)) ?_
        exact fun he => hg (pkey_inj he).symm
      have htail := ih g hgr
      simp only [dropDupAux, if_neg hg]
      refine List.pairwise_cons.mpr ⟨?_, htail⟩
      intro x hx
      rcases List.mem_cons.mp hx with rfl | hx2
      · exact hcg
      · have hxr : x ∈ rest := List.Sublist.mem hx2 (dropDupAux_sublist rest g)
        exact lt_of_lt_of_le hcg ((List.pairwise_cons.mp hgr).1 x hxr)

/-- On a path-sorted input, `dropDupPaths` yields strictly increasing
paths. -/
theorem dropDupPaths_pairwise {l : List SwFile} (h : l.Pairwise pathLe) :
    (dropDupPaths l).Pairwise pathLt := by
  cases l with
  | nil => simp [dropDupPaths]
  | cons f rest => exact dropDupAux_pairwise rest f h

/-- The consolidated list is pairwise strictly increasing in path. -/
theorem consolidate_pairwise_pathLt (fs : List SwFile) :
    (consolidate_files fs).Pairwise pathLt :=
  dropDupPaths_pairwise (pairwise_pathLe_sort fs)

/-- The consolidated list is pairwise ordered by path. -/
theorem consolidate_pairwise_pathLe (fs : List SwFile) :
    (consolidate_files fs).Pairwise pathLe :=
  (consolidate_pairwise_pathLt fs).imp fun h => le_of_lt h

/-- The duplicate-path walk preserves the set of paths. -/
theorem dropDupAux_mem_filename (l : List SwFile) :
    ∀ cur p, (p ∈ (cur :: dropDupAux cur l).map SwFile.filename ↔
      p ∈ (cur :: l).map SwFile.filename) := by
  induction l with
  | nil => intro cur p; simp [dropDupAux]
  | cons g rest ih =>
    intro cur p
    by_cases hg : g.filename = cur.filename
    · have h2 := ih cur p
      simp only [dropDupAux, if_pos hg, List.map_cons, List.mem_cons] at h2 ⊢
      rw [h2]
      constructor
      · intro hx
        rcases hx with h | h
        · exact Or.inl h
        · exact Or.inr (Or.inr h)
      · intro hx
        rcases hx with h | h | h
        · exact Or.inl h
        · exact Or.inl (by rw [h, hg])
        · exact Or.inr h
    · have h2 := ih g p
      simp only [dropDupAux, if_neg hg, List.map_cons, List.mem_cons] at h2 ⊢
      tauto

/-- `dropDupPaths` preserves the set of paths. -/
theorem mem_filename_dropDupPaths {l : List SwFile} {p : String} :
    p ∈ (dropDupPaths l).map SwFile.filename ↔ p ∈ l.map SwFile.filename := by
  cases l with
  | nil => simp [dropDupPaths]
  | cons f rest => exact dropDupAux_mem_filename rest f p

/-- Consolidation preserves the set of paths: it only collapses duplicate
entries of a path, never drops a path entirely. -/
theorem mem_filename_consolidate {fs : List SwFile} {p : String} :
    p ∈ (consolidate_files fs).map SwFile.filename ↔ p ∈ fs.map SwFile.filename := by
  unfold consolidate_files
  rw [mem_filename_dropDupPaths]
  exact ((List.perm_insertionSort fileLe fs).map SwFile.filename).mem_iff

/-- The head surviving a `dropWhile` falsifies the predicate. -/
theorem dropWhile_head_false {α : Type} (p : α → Bool) (l : List α) {x : α}
    {xs : List α} (h : l.dropWhile p = x :: xs) : p x = false := by
  induction l with
  | nil => simp [List.dropWhile] at h
  | cons a l ih =>
    rw [List.dropWhile_cons] at h
    by_cases ha : p a
    · rw [if_pos ha] at h
      exact ih h
    · rw [if_neg ha] at h
      cases h
      exact Bool.eq_false_iff.mpr ha

/-- With an empty reference list, `dedup` keeps everything. -/
theorem dedup_nil (bs : List SwFile) : dedup bs [] = bs := by
  induction bs with
  | nil => rfl
  | cons b bs ih => simp [dedup, ih]

/-- `dedup` only removes entries of the bundle list. -/
theorem dedup_sublist (bs : List SwFile) : ∀ rs, (dedup bs rs).Sublist bs := by
  induction bs with
  | nil => intro rs; simp [dedup]
  | cons b bs ih =>
    intro rs
    show (dedup (b :: bs) rs).Sublist (b :: bs)
    rw [dedup]
    cases hrs : rs.dropWhile (fun r => decide (pkey r.filename < pkey b.filename)) with
    | nil => exact (ih []).cons₂ b
    | cons r rs' =>
      by_cases hb : b.filename = r.filename
      · simpa [if_pos hb] using (ih (r :: rs')).cons b
      · simpa [if_neg hb] using (ih (r :: rs')).cons₂ b

/-- Core of the remove-path safety argument: on path-sorted inputs, no entry
surviving `dedup` shares a path with the reference list. -/
theorem dedup_disjoint (bs : List SwFile) :
    ∀ rs, bs.Pairwise pathLe → rs.Pairwise pathLe →
      ∀ f ∈ dedup bs rs, ∀ g ∈ rs, f.filename ≠ g.filename := by
  induction bs with
  | nil =>
    intro rs _ _ f hf
    simp [dedup] at hf
  | cons b bs ih =>
    intro rs hb hr f hf g hg
    rcases List.pairwise_cons.mp hb with ⟨hbb, hbs⟩
    have hsplit := List.takeWhile_append_dropWhile
      (fun r => decide (pkey r.filename < pkey b.filename)) rs
    have htake : ∀ x ∈ rs.takeWhile
        (fun r => decide (pkey r.filename < pkey b.filename)),
        pkey x.filename < pkey b.filename := by
      intro x hx
      simpa using List.mem_takeWhile_imp hx
    cases hdw : rs.dropWhile (fun r => decide (pkey r.filename < pkey b.filename)) with
    | nil =>
      have heq : dedup (b :: bs) rs = b :: dedup bs [] := by
        rw [dedup, hdw]
      rw [heq, dedup_nil] at hf
      have hgt : g ∈ rs.takeWhile (fun r => decide (pkey r.filename < pkey b.filename)) := by
        rw [← hsplit, hdw, List.append_nil] at hg
        exact hg
      have hglt := htake g hgt
      rcases List.mem_cons.mp hf with rfl | hfb
      · exact (pathLt_ne hglt).symm
      · exact (pathLt_ne (lt_of_lt_of_le hglt (hbb f hfb))).symm
    | cons r rs' =>
      have hble : pkey b.filename ≤ pkey r.filename := by
        have hfalse := dropWhile_head_false _ rs hdw
        simp only [decide_eq_false_iff_not] at hfalse
        exact le_of_not_lt hfalse
      have hrs2 : (r :: rs').Pairwise pathLe := by
        rw [← hdw]
        exact List.Pairwise.sublist (List.dropWhile_sublist _) hr
      have hgcase : g ∈ rs.takeWhile
          (fun x => decide (pkey x.filename < pkey b.filename)) ∨ g ∈ r :: rs' := by
        rw [← hsplit, hdw] at hg
        exact List.mem_append.mp hg
      by_cases hbr : b.filename = r.filename
      · have heq : dedup (b :: bs) rs = dedup bs (r :: rs') := by
          rw [dedup, hdw]
          simp [hbr]
        rw [heq] at hf
        have hfbs : f ∈ bs := List.Sublist.mem hf (dedup_sublist bs (r :: rs'))
        rcases hgcase with hgt | hgr
        · exact (pathLt_ne (lt_of_lt_of_le (htake g hgt) (hbb f hfbs))).symm
        · exact ih (r :: rs') hbs hrs2 f hf g hgr
      · have heq : dedup (b :: bs) rs = b :: dedup bs (r :: rs') := by
          rw [dedup, hdw]
          simp [hbr]
        rw [heq] at hf
        rcases List.mem_cons.mp hf with rfl | hfd
        · rcases hgcase with hgt | hgr
          · exact (pathLt_ne (htake g hgt)).symm
          · rcases List.mem_cons.mp hgr with rfl | hgr2
            · exact hbr
            · have hblt : pkey f.filename < pkey r.filename :=
                lt_of_le_of_ne hble (fun he => hbr (pkey_inj he))
              have hrg : pathLe r g := (List.pairwise_cons.mp hrs2).1 g hgr2
              exact pathLt_ne (lt_of_lt_of_le hblt hrg)
        · have hfbs : f ∈ bs := List.Sublist.mem hfd (dedup_sublist bs (r :: rs'))
          rcases hgcase with hgt | hgr
          · exact (pathLt_ne (lt_of_lt_of_le (htake g hgt) (hbb f hfbs))).symm
          · exact ih (r :: rs') hbs hrs2 f hfd g hgr

/-- The unlink set of `remove_stage2`: every unlinked path is a path of the
removed bundle's file list and shares no path with any remaining
submanifest's files. -/
theorem remove_stage2_unlinked (bm : Manifest) (subms : List Manifest) :
    (∀ p ∈ (remove_stage2 bm subms).unlinked,
        p ∈ (remove_stage2 bm subms).bundleFiles.map SwFile.filename) ∧
    (∀ p ∈ (remove_stage2 bm subms).unlinked,
        ∀ g ∈ (remove_stage2 bm subms).restFiles, p ≠ g.filename) := by
  constructor
  · intro p hp
    simp only [remove_stage2] at hp ⊢
    rcases List.mem_map.mp hp with ⟨f, hf, rfl⟩
    have hfs : f ∈ sort_files_by_filename bm.files :=
      List.Sublist.mem hf (dedup_sublist _ _)
    exact List.mem_map_of_mem SwFile.filename
      ((List.perm_insertionSort pathLe bm.files).mem_iff.mp hfs)
  · intro p hp g hg
    simp only [remove_stage2] at hp hg
    rcases List.mem_map.mp hp with ⟨f, hf, rfl⟩
    have hd := dedup_disjoint (sort_files_by_filename bm.files)
      (consolidate_files (files_from_bundles subms))
      (pairwise_pathLe_sort_files bm.files)
      (consolidate_pairwise_pathLe _) f hf
    intro he
    have hgc : g.filename ∈
        (consolidate_files (files_from_bundles subms)).map SwFile.filename :=
      mem_filename_consolidate.mpr (List.mem_map_of_mem SwFile.filename hg)
    rcases List.mem_map.mp hgc with ⟨g2, hg2, hg2e⟩
    exact hd g2 hg2 (by rw [he, hg2e])

/-- C5: for every input file list, the consolidated file list produced
during install and remove (sort by path ascending, version descending,
deleted-last, then keep the first entry per distinct path) contains each
path at most once. -/
theorem claim_C5_consolidated_paths_unique (fs : List SwFile) :
    ((consolidate_files fs).map SwFile.filename).Nodup :=
  List.pairwise_map.mpr ((consolidate_pairwise_pathLt fs).imp fun h => pathLt_ne h)

/-- C1: for every `remove_bundle` run, deduplication of the removed bundle's
file list against the consolidated retain list of the remaining installed
bundles yields a subset of the bundle's files sharing no path with the
remaining bundles' files, so a path also owned by a bundle that remains
installed is never unlinked. -/
theorem claim_C1_remove_spares_shared_paths (env : Env) (fuel : Nat)
    (name : String) (out : RemoveOutcome)
    (h : remove_bundle env fuel name = some out) :
    (∀ p ∈ out.unlinked, p ∈ out.bundleFiles.map SwFile.filename) ∧
    (∀ p ∈ out.unlinked, ∀ g ∈ out.restFiles, p ≠ g.filename) := by
  unfold remove_bundle at h
  repeat' split at h
  all_goals
    first
      | exact Option.noConfusion h
      | (injection h with h
         subst h
         first
           | exact remove_stage2_unlinked _ _
           | exact ⟨fun p hp => absurd hp (List.not_mem_nil p),
               fun p hp => absurd hp (List.not_mem_nil p)⟩)

/-- C2 (theorem): a remove of a bundle whose name appears in the includes
list of a remaining installed bundle's submanifest aborts with
`EBUNDLE_REMOVE`: no path is unlinked and the tracked-bundles marker is not
removed. -/
theorem claim_C2_remove_included_aborts (env : Env) (fuel : Nat) (name : String)
    (mom : Manifest) (subms : List Manifest)
    (h0 : env.initRet = 0) (h1 : name ≠ "os-core")
    (h2 : is_tracked_bundle env name = true)
    (h3 : env.currentVersion.isSome = true)
    (h4 : env.mom = some mom)
    (h5 : (search_bundle_in_manifest mom name).isSome = true)
    (h6 : recurseAll env mom fuel (env.tracked.erase name) [] [] = .ok subms)
    (h7 : is_included name subms = true) :
    remove_bundle env fuel name =
      some { ret := EBUNDLE_REMOVE, unlinked := [], markerRemoved := false } := by
  obtain ⟨v, hv⟩ := Option.isSome_iff_exists.mp h3
  obtain ⟨f, hfind⟩ := Option.isSome_iff_exists.mp h5
  simp [remove_bundle, h0, h1, h2, hv, h4, hfind, h6, h7]

/-- C3 (amended theorem): whenever updater initialization succeeds,
`remove_bundle` rejects `"os-core"` with `EBUNDLE_NOT_TRACKED` for every
environment — before the tracked-marker check, version discovery or any
manifest load, and without unlinking anything or touching the marker. -/
theorem claim_C3_remove_oscore_rejected (env : Env) (fuel : Nat)
    (h : env.initRet = 0) :
    remove_bundle env fuel "os-core" =
      some { ret := EBUNDLE_NOT_TRACKED, unlinked := [], markerRemoved := false } := by
  simp [remove_bundle, h]

/-- Bundle manifest of `editors` for the shared-file remove scenario: it owns
`/usr/bin/ed` and its own tracked marker file. -/
def medC1 : Manifest :=
  { component := "editors", version := 10,
    files := [{ filename := "/usr/bin/ed", hash := "h1", last_change := 10 },
              { filename := "/usr/share/clear/bundles/editors", hash := "h2",
                last_change := 10 }] }

/-- Bundle manifest of `devtools` for the shared-file remove scenario: it
also lists `/usr/bin/ed` with the same hash. -/
def mdevC1 : Manifest :=
  { component := "devtools", version := 10,
    files := [{ filename := "/usr/bin/ed", hash := "h1", last_change := 10 }] }

/-- MoM for the shared-file remove scenario. -/
def momC1 : Manifest :=
  { component := "MoM", version := 10,
    manifests := [{ filename := "editors", hash := "me", last_change := 10 },
                  { filename := "devtools", hash := "md", last_change := 10 }] }

/-- Environment of the shared-file remove scenario: both bundles tracked,
every load succeeds. -/
def envC1 : Env :=
  { initRet := 0, networkOk := true, currentVersion := some 10, mom := some momC1,
    tracked := ["editors", "devtools"],
    load_sub := fun b =>
      if b = "editors" then some medC1
      else if b = "devtools" then some mdevC1 else none,
    load_attempt := fun _ _ => none,
    stageOk := fun _ => true, fixOk := fun _ => true, ignore := fun _ => false }

/-- Outcome of `remove_bundle envC1 2 "editors"`: only the marker file is
unlinked; the shared `/usr/bin/ed` survives. -/
def outC1 : RemoveOutcome :=
  { ret := 0, unlinked := ["/usr/share/clear/bundles/editors"],
    markerRemoved := true,
    restFiles := [{ filename := "/usr/bin/ed", hash := "h1", last_change := 10 }],
    bundleFiles := medC1.files }

/-- Witness for C1 at the shared-file scenario. -/
theorem claim_C1_witness :
    remove_bundle envC1 2 "editors" = some outC1 ∧
    ((∀ p ∈ outC1.unlinked, p ∈ outC1.bundleFiles.map SwFile.filename) ∧
     (∀ p ∈ outC1.unlinked, ∀ g ∈ outC1.restFiles, p ≠ g.filename)) :=
  ⟨by decide, claim_C1_remove_spares_shared_paths envC1 2 "editors" outC1 (by decide)⟩

/-- Bundle manifest of `editors` for the required-bundle remove scenario. -/
def medC2 : Manifest :=
  { component := "editors", version := 10,
    files := [{ filename := "/usr/bin/ed", hash := "h1", last_change := 10 }] }

/-- Bundle manifest of `devtools`, which includes `editors`. -/
def mdevC2 : Manifest :=
  { component := "devtools", version := 10, includes := ["editors"],
    files := [{ filename := "/usr/bin/gdb", hash := "h3", last_change := 10 }] }

/-- MoM for the required-bundle remove scenario. -/
def momC2 : Manifest :=
  { component := "MoM", version := 10,
    manifests := [{ filename := "editors", hash := "me", last_change := 10 },
                  { filename := "devtools", hash := "md", last_change := 10 }] }

/-- Environment of the required-bundle remove scenario: both bundles
tracked, `devtools` includes `editors`. -/
def envC2 : Env :=
  { initRet := 0, networkOk := true, currentVersion := some 10, mom := some momC2,
    tracked := ["editors", "devtools"],
    load_sub := fun b =>
      if b = "editors" then some medC2
      else if b = "devtools" then some mdevC2 else none,
    load_attempt := fun _ _ => none,
    stageOk := fun _ => true, fixOk := fun _ => true, ignore := fun _ => false }

/-- Witness for C2 at the required-bundle scenario: `remove("editors")`
returns `EBUNDLE_REMOVE` and changes nothing on disk. -/
theorem claim_C2_witness :
    remove_bundle envC2 3 "editors" =
      some { ret := EBUNDLE_REMOVE, unlinked := [], markerRemoved := false } :=
  claim_C2_remove_included_aborts envC2 3 "editors" momC2 [mdevC2, medC2]
    (by decide) (by decide) (by decide) (by decide) (by decide) (by decide)
    (by decide) (by decide)

/-- Environment whose updater initialization fails (the advisory lock is
held, say): `swupd_init` returns a nonzero code. -/
def envC3bad : Env :=
  { initRet := 20, networkOk := true, currentVersion := none, mom := none,
    tracked := ["os-core"], load_sub := fun _ => none,
    load_attempt := fun _ _ => none,
    stageOk := fun _ => false, fixOk := fun _ => false, ignore := fun _ => false }

/-- Counterexample for C3 as stated: when `swupd_init` fails,
`remove_bundle` on `"os-core"` returns the init error, not
`EBUNDLE_NOT_TRACKED`, so the rejection does not hold for every filesystem
state. -/
theorem claim_C3_counterexample :
    remove_bundle envC3bad 1 "os-core" =
      some { ret := 20, unlinked := [], markerRemoved := false } ∧
    (20 : Int) ≠ EBUNDLE_NOT_TRACKED := by
  decide

/-- Environment with a successful initialization and `os-core` tracked. -/
def envC3ok : Env :=
  { initRet := 0, networkOk := true, currentVersion := none, mom := none,
    tracked := ["os-core"], load_sub := fun _ => none,
    load_attempt := fun _ _ => none,
    stageOk := fun _ => false, fixOk := fun _ => false, ignore := fun _ => false }

/-- Witness for the amended C3. -/
theorem claim_C3_witness :
    remove_bundle envC3ok 1 "os-core" =
      some { ret := EBUNDLE_NOT_TRACKED, unlinked := [], markerRemoved := false } :=
  claim_C3_remove_oscore_rejected envC3ok 1 rfl

/-- A load that succeeds on its first attempt leaves the shared retry state
untouched and counts one attempt. -/
theorem retryLoad_first (env : Env) (b : String) (rt t : Nat) (m : Manifest)
    (h : env.load_attempt b 0 = some m) :
    retryLoad env b rt t = (some m, rt, t, 1) := by
  cases hb : MAX_TRIES - rt with
  | zero => simp [retryLoad, hb, retry_attempts, h]
  | succ n => simp [retryLoad, hb, retry_attempts, h]

/-- A manifest returned by the retry loop was returned by some attempt of
the load oracle. -/
theorem retry_attempts_some (env : Env) (b : String) :
    ∀ budget k rt t m r2 t2 cnt,
      retry_attempts env b budget k rt t = (some m, r2, t2, cnt) →
      ∃ j, env.load_attempt b j = some m := by
  intro budget
  induction budget with
  | zero =>
    intro k rt t m r2 t2 cnt h
    rw [retry_attempts] at h
    cases hk : env.load_attempt b k with
    | some m' =>
      rw [hk] at h
      simp only [Prod.mk.injEq, Option.some.injEq] at h
      exact ⟨k, by rw [hk, h.1]⟩
    | none =>
      rw [hk] at h
      by_cases hrt : rt < MAX_TRIES
      · rw [if_pos hrt] at h
        simp only [Prod.mk.injEq] at h
        exact absurd h.1 (by simp)
      · rw [if_neg hrt] at h
        simp only [Prod.mk.injEq] at h
        exact absurd h.1 (by simp)
  | succ budget ih =>
    intro k rt t m r2 t2 cnt h
    rw [retry_attempts] at h
    cases hk : env.load_attempt b k with
    | some m' =>
      rw [hk] at h
      simp only [Prod.mk.injEq, Option.some.injEq] at h
      exact ⟨k, by rw [hk, h.1]⟩
    | none =>
      rw [hk] at h
      by_cases hrt : rt < MAX_TRIES
      · rw [if_pos hrt] at h
        simp only [increment_retries] at h
        rcases hr : retry_attempts env b budget (k + 1) (rt + 1) (2 * t)
          with ⟨res, a2, b2, c2⟩
        rw [hr] at h
        simp only [Prod.mk.injEq] at h
        exact ih (k + 1) (rt + 1) (2 * t) m a2 b2 c2 (by rw [hr, h.1])
      · rw [if_neg hrt] at h
        simp only [Prod.mk.injEq] at h
        exact absurd h.1 (by simp)

/-- Manifest of bundle `a` in the cyclic include graph: `a` includes `b`. -/
def maC9 : Manifest := { component := "a", version := 10, includes := ["b"] }

/-- Manifest of bundle `b` in the cyclic include graph: `b` includes `a`. -/
def mbC9 : Manifest := { component := "b", version := 10, includes := ["a"] }

/-- MoM of the cyclic include graph. -/
def momC9 : Manifest :=
  { component := "MoM", version := 10,
    manifests := [{ filename := "a", hash := "ha", last_change := 10 },
                  { filename := "b", hash := "hb", last_change := 10 }] }

/-- Environment of the cyclic include graph.  Both bundles are tracked and
every load succeeds instantly: the divergence is purely in the include
recursion. -/
def envC9 : Env :=
  { initRet := 0, networkOk := true, currentVersion := some 10, mom := some momC9,
    tracked := ["a", "b"],
    load_sub := fun b =>
      if b = "a" then some maC9 else if b = "b" then some mbC9 else none,
    load_attempt := fun b _ =>
      if b = "a" then some maC9 else if b = "b" then some mbC9 else none,
    stageOk := fun _ => true, fixOk := fun _ => true, ignore := fun _ => false }

/-- One loop step on the cyclic graph: processing `"a"` descends into
`["b"]` before any visited check, so the loop returns whatever the descent
returns when that descent fails to produce a value. -/
theorem addSubsLoop_cyc_a (rec : List String → List String → Option SubsRes)
    (s : List String) (nb : Bool) (rt t : Nat) (hrec : rec ["b"] s = none) :
    addSubsLoop envC9 momC9 rec ["a"] s nb rt t = none := by
  have hload : envC9.load_attempt "a" 0 = some maC9 := rfl
  rw [addSubsLoop]
  rw [show search_bundle_in_manifest momC9 "a" =
    some { filename := "a", hash := "ha", last_change := 10 } from rfl]
  rw [retryLoad_first envC9 "a" rt t maC9 hload]
  simp [maC9, hrec]

/-- One loop step on the cyclic graph, from `"b"`. -/
theorem addSubsLoop_cyc_b (rec : List String → List String → Option SubsRes)
    (s : List String) (nb : Bool) (rt t : Nat) (hrec : rec ["a"] s = none) :
    addSubsLoop envC9 momC9 rec ["b"] s nb rt t = none := by
  have hload : envC9.load_attempt "b" 0 = some mbC9 := rfl
  rw [addSubsLoop]
  rw [show search_bundle_in_manifest momC9 "b" =
    some { filename := "b", hash := "hb", last_change := 10 } from rfl]
  rw [retryLoad_first envC9 "b" rt t mbC9 hload]
  simp [mbC9, hrec]

/-- On the cyclic include graph, `add_subscriptions` produces no value at
any recursion depth: the include descent of `"a"` re-expands `"b"`, which
re-expands `"a"`, without ever consulting the tracked or subscribed sets. -/
theorem add_subscriptions_cyc_none :
    ∀ fuel s nb rt t,
      add_subscriptions envC9 momC9 fuel ["a"] s nb rt t = none ∧
      add_subscriptions envC9 momC9 fuel ["b"] s nb rt t = none := by
  intro fuel
  induction fuel with
  | zero =>
    intro s nb rt t
    exact ⟨addSubsLoop_cyc_a _ s nb rt t rfl, addSubsLoop_cyc_b _ s nb rt t rfl⟩
  | succ n ih =>
    intro s nb rt t
    constructor
    · exact addSubsLoop_cyc_a _ s nb rt t ((ih s false 0 10).2)
    · exact addSubsLoop_cyc_b _ s nb rt t ((ih s false 0 10).1)

/-- C9 (counterexample): on a finite cyclic bundle/includes graph with both
bundles already tracked, `add_subscriptions(["a"])` never returns — a bundle
already visited is re-expanded, the recursion over includes is not
well-founded. -/
theorem claim_C9_counterexample :
    ¬ ∃ fuel r, add_subscriptions envC9 momC9 fuel ["a"] [] false 0 10 = some r := by
  rintro ⟨fuel, r, hr⟩
  rw [(add_subscriptions_cyc_none fuel [] false 0 10).1] at hr
  exact Option.noConfusion hr

/-- Totality of the `add_subscriptions` loop body under a rank function that
decreases along `includes`, given that the include descent `rec` is total on
include lists of rank below `n`. -/
theorem addSubsLoop_isSome (env : Env) (mom : Manifest) (rank : String → Nat)
    (hrank : ∀ b k m, env.load_attempt b k = some m → ∀ i ∈ m.includes, rank i < rank b)
    (n : Nat) (rec : List String → List String → Option SubsRes)
    (hrec : ∀ incl subs, incl ≠ [] → (∀ i ∈ incl, rank i < n) →
      (rec incl subs).isSome = true) :
    ∀ bundles, (∀ b ∈ bundles, rank b ≤ n) →
      ∀ subs nb rt t, (addSubsLoop env mom rec bundles subs nb rt t).isSome = true := by
  intro bundles
  induction bundles with
  | nil => intro _ subs nb rt t; simp [addSubsLoop]
  | cons b rest ihl =>
    intro hb subs nb rt t
    have hbn : rank b ≤ n := hb b (List.mem_cons_self b rest)
    have hrest : ∀ x ∈ rest, rank x ≤ n := fun x hx => hb x (List.mem_cons_of_mem b hx)
    rw [addSubsLoop]
    cases hs : search_bundle_in_manifest mom b with
    | none => exact ihl hrest subs nb rt t
    | some f =>
      rcases hR : retryLoad env b rt t with ⟨res, r2, t2, cnt⟩
      cases res with
      | none => simp
      | some m =>
        dsimp only
        rw [retryLoad] at hR
        obtain ⟨j, hj⟩ := retry_attempts_some env b _ _ _ _ _ _ _ _ hR
        have hinc := hrank b j m hj
        by_cases he : m.includes.isEmpty
        · rw [if_pos he]
          obtain ⟨v, hv⟩ := Option.isSome_iff_exists.mp
            (ihl hrest (if b ∈ env.tracked ∨ b ∈ subs then subs else subs ++ [b])
              (if b ∈ env.tracked ∨ b ∈ subs then nb else true) r2 t2)
          rw [hv]
          simp
        · rw [if_neg he]
          have hne : m.includes ≠ [] := by
            intro hx
            rw [hx] at he
            exact he rfl
          have hrecm := hrec m.includes subs hne
            (fun i hi => lt_of_lt_of_le (hinc i hi) hbn)
          obtain ⟨rr, hrr⟩ := Option.isSome_iff_exists.mp hrecm
          rw [hrr]
          dsimp only
          by_cases hm1 : rr.ret = -1
          · rw [if_pos hm1]
            simp
          · rw [if_neg hm1]
            obtain ⟨v, hv⟩ := Option.isSome_iff_exists.mp
              (ihl hrest (if b ∈ env.tracked ∨ b ∈ rr.subs then rr.subs else rr.subs ++ [b])
                (if b ∈ env.tracked ∨ b ∈ rr.subs then
                  (if rr.ret = 0 then true else nb) else true) r2 t2)
            rw [hv]
            simp

/-- Totality of `add_subscriptions` under a rank decreasing along includes,
with fuel above the rank of every requested bundle. -/
theorem add_subscriptions_isSome_of_rank (env : Env) (mom : Manifest)
    (rank : String → Nat)
    (hrank : ∀ b k m, env.load_attempt b k = some m →
      ∀ i ∈ m.includes, rank i < rank b) :
    ∀ fuel bundles, (∀ b ∈ bundles, rank b < fuel) →
      ∀ subs nb rt t,
        (add_subscriptions env mom fuel bundles subs nb rt t).isSome = true := by
  intro fuel
  induction fuel with
  | zero =>
    intro bundles hb subs nb rt t
    cases bundles with
    | nil => simp [add_subscriptions, addSubsLoop]
    | cons b rest => exact absurd (hb b (List.mem_cons_self b rest)) (Nat.not_lt_zero _)
  | succ n ih =>
    intro bundles hb subs nb rt t
    rw [add_subscriptions]
    exact addSubsLoop_isSome env mom rank hrank n _
      (fun incl s _ hlt => ih incl hlt s false 0 10)
      bundles (fun b hbm => Nat.lt_succ_iff.mp (hb b hbm)) subs nb rt t

/-- C9 (amended theorem): `add_subscriptions` terminates on every finite
bundle/includes graph that admits a rank function strictly decreasing along
`includes` (an acyclic graph), with recursion depth bounded by the rank; on
cyclic graphs the recursion is not well-founded, because the
tracked/subscribed check runs only after the include descent (see the
counterexample). -/
theorem claim_C9_terminates_on_acyclic_includes (env : Env) (mom : Manifest)
    (rank : String → Nat)
    (hrank : ∀ b k m, env.load_attempt b k = some m →
      ∀ i ∈ m.includes, rank i < rank b)
    (fuel : Nat) (bundles : List String)
    (hfuel : ∀ b ∈ bundles, rank b < fuel)
    (subs : List String) (nb : Bool) (rt t : Nat) :
    ∃ r, add_subscriptions env mom fuel bundles subs nb rt t = some r :=
  Option.isSome_iff_exists.mp
    (add_subscriptions_isSome_of_rank env mom rank hrank fuel bundles hfuel subs nb rt t)

/-- Manifest of bundle `a` in the acyclic graph: includes `b`. -/
def maW9 : Manifest := { component := "a", version := 10, includes := ["b"] }

/-- Manifest of bundle `b` in the acyclic graph: no includes. -/
def mbW9 : Manifest := { component := "b", version := 10 }

/-- MoM of the acyclic graph. -/
def momW9 : Manifest :=
  { component := "MoM", version := 10,
    manifests := [{ filename := "a", hash := "ha", last_change := 10 },
                  { filename := "b", hash := "hb", last_change := 10 }] }

/-- Environment of the acyclic graph. -/
def envW9 : Env :=
  { initRet := 0, networkOk := true, currentVersion := some 10, mom := some momW9,
    tracked := [],
    load_sub := fun b =>
      if b = "a" then some maW9 else if b = "b" then some mbW9 else none,
    load_attempt := fun b _ =>
      if b = "a" then some maW9 else if b = "b" then some mbW9 else none,
    stageOk := fun _ => true, fixOk := fun _ => true, ignore := fun _ => false }

/-- Rank function of the acyclic graph. -/
def rankW9 : String → Nat := fun s => if s = "a" then 1 else 0

/-- Witness for the amended C9 on the acyclic two-bundle graph. -/
theorem claim_C9_witness :
    ∃ r, add_subscriptions envW9 momW9 2 ["a"] [] false 0 10 = some r :=
  claim_C9_terminates_on_acyclic_includes envW9 momW9 rankW9
    (by
      intro b k m hm i hi
      by_cases hb : b = "a"
      · subst hb
        simp [envW9] at hm
        subst hm
        simp [maW9] at hi
        subst hi
        decide
      · by_cases hb2 : b = "b"
        · subst hb2
          simp [envW9] at hm
          subst hm
          simp [mbW9] at hi
        · simp [envW9, hb, hb2] at hm)
    2 ["a"] (by decide) [] false 0 10

/-- A fresh retry loop whose load always fails makes `MAX_TRIES + 1`
attempts, ends with `retries = MAX_TRIES`, and doubles the timeout on each
of the `MAX_TRIES` retries. -/
theorem retryLoad_exhausts (env : Env) (b : String) (t : Nat)
    (hfail : ∀ k, env.load_attempt b k = none) :
    retryLoad env b 0 t = (none, MAX_TRIES, 2 ^ MAX_TRIES * t, MAX_TRIES + 1) := by
  simp [retryLoad, retry_attempts, hfail, increment_retries, MAX_TRIES]
  omega

/-- C8 (amended theorem): the retry budget is shared by all manifest loads
of one `add_subscriptions` invocation rather than applying per manifest
load: one `retries` counter (starting 0) and one `timeout` (starting 10)
are locals of the invocation, threaded through every load; each failed
attempt while `retries < MAX_TRIES` sleeps, doubles `timeout` and
increments `retries`, and a failed attempt once `retries` has reached
`MAX_TRIES` surfaces the hard failure `-1`.  A fresh invocation whose first
bundle's load always fails therefore makes exactly `MAX_TRIES + 1` attempts
for that load, with the timeout doubled `MAX_TRIES` times. -/
theorem claim_C8_shared_retry_budget (env : Env) (mom : Manifest) (fuel : Nat)
    (b : String) (rest subs : List String) (nb : Bool) (t : Nat) (f : SwFile)
    (hsearch : search_bundle_in_manifest mom b = some f)
    (hfail : ∀ k, env.load_attempt b k = none) :
    add_subscriptions env mom fuel (b :: rest) subs nb 0 t =
      some { ret := -1, subs := subs, log := [(b, MAX_TRIES + 1)] } ∧
    retryLoad env b 0 t = (none, MAX_TRIES, 2 ^ MAX_TRIES * t, MAX_TRIES + 1) := by
  have hx := retryLoad_exhausts env b t hfail
  refine ⟨?_, hx⟩
  cases fuel with
  | zero => rw [add_subscriptions, addSubsLoop, hsearch, hx]
  | succ n => rw [add_subscriptions, addSubsLoop, hsearch, hx]

/-- Manifest of bundle `a` in the shared-budget scenario: no includes. -/
def maC8 : Manifest := { component := "a", version := 10 }

/-- MoM of the shared-budget scenario. -/
def momC8 : Manifest :=
  { component := "MoM", version := 10,
    manifests := [{ filename := "a", hash := "ha", last_change := 10 },
                  { filename := "b", hash := "hb", last_change := 10 }] }

/-- Environment of the shared-budget scenario: bundle `a`'s manifest load
fails twice then succeeds, bundle `b`'s load always fails. -/
def envC8 : Env :=
  { initRet := 0, networkOk := true, currentVersion := some 10, mom := some momC8,
    tracked := [],
    load_sub := fun _ => none,
    load_attempt := fun b k =>
      if b = "a" then (if k ≤ 1 then none else some maC8) else none,
    stageOk := fun _ => true, fixOk := fun _ => true, ignore := fun _ => false }

/-- C8 (counterexample): in one `add_subscriptions` invocation over
`["a", "b"]`, bundle `a`'s load consumes two retries before succeeding
(3 attempts), after which bundle `b`'s load is attempted only 2 times —
neither `MAX_TRIES` nor `MAX_TRIES + 1` — before the hard failure `-1`:
the retry budget is shared across the invocation, not per manifest load. -/
theorem claim_C8_counterexample :
    add_subscriptions envC8 momC8 1 ["a", "b"] [] false 0 10 =
      some { ret := -1, subs := ["a"], log := [("a", 3), ("b", 2)] } ∧
    (2 ≠ MAX_TRIES ∧ 2 ≠ MAX_TRIES + 1) := by
  decide

/-- MoM of the exhausted-retries scenario. -/
def momC8w : Manifest :=
  { component := "MoM", version := 10,
    manifests := [{ filename := "x", hash := "hx", last_change := 10 }] }

/-- Environment of the exhausted-retries scenario: every load fails. -/
def envC8w : Env :=
  { initRet := 0, networkOk := true, currentVersion := some 10, mom := some momC8w,
    tracked := [],
    load_sub := fun _ => none,
    load_attempt := fun _ _ => none,
    stageOk := fun _ => true, fixOk := fun _ => true, ignore := fun _ => false }

/-- Witness for the amended C8. -/
theorem claim_C8_witness :
    add_subscriptions envC8w momC8w 1 ["x"] [] false 0 10 =
      some { ret := -1, subs := [], log := [("x", MAX_TRIES + 1)] } ∧
    retryLoad envC8w "x" 0 10 =
      (none, MAX_TRIES, 2 ^ MAX_TRIES * 10, MAX_TRIES + 1) :=
  claim_C8_shared_retry_budget envC8w momC8w 1 "x" [] [] false 10
    { filename := "x", hash := "hx", last_change := 10 } (by decide) (fun _ => rfl)

/-- Loop body of `add_subscriptions` over bundles that are all drawn from a
set `S` closed under includes whose members are all tracked or already in
the subscription set: the loop subscribes nothing and reports no new
bundles. -/
theorem addSubsLoop_no_new (env : Env) (mom : Manifest) (S subs0 : List String)
    (hS : ∀ b ∈ S, ∃ m, env.load_attempt b 0 = some m ∧ ∀ i ∈ m.includes, i ∈ S)
    (htr : ∀ b ∈ S, b ∈ env.tracked ∨ b ∈ subs0)
    (rec : List String → List String → Option SubsRes)
    (hrec : ∀ incl r, (∀ i ∈ incl, i ∈ S) → rec incl subs0 = some r →
      r.ret = 1 ∧ r.subs = subs0) :
    ∀ bundles, (∀ b ∈ bundles, b ∈ S) →
      ∀ nb rt t r, addSubsLoop env mom rec bundles subs0 nb rt t = some r →
        r.ret = (if nb then 0 else 1) ∧ r.subs = subs0 := by
  intro bundles
  induction bundles with
  | nil =>
    intro _ nb rt t r h
    rw [addSubsLoop] at h
    injection h with h
    subst h
    exact ⟨rfl, rfl⟩
  | cons b rest ihl =>
    intro hbS nb rt t r h
    have hbmem : b ∈ S := hbS b (List.mem_cons_self b rest)
    have hrestS : ∀ x ∈ rest, x ∈ S := fun x hx => hbS x (List.mem_cons_of_mem b hx)
    obtain ⟨m, hm0, hminc⟩ := hS b hbmem
    have hsub : (if b ∈ env.tracked ∨ b ∈ subs0 then subs0 else subs0 ++ [b]) = subs0 :=
      if_pos (htr b hbmem)
    have hnb2 : ∀ nbx : Bool,
        (if b ∈ env.tracked ∨ b ∈ subs0 then nbx else true) = nbx :=
      fun nbx => if_pos (htr b hbmem)
    rw [addSubsLoop] at h
    cases hs : search_bundle_in_manifest mom b with
    | none =>
      rw [hs] at h
      exact ihl hrestS nb rt t r h
    | some f =>
      rw [hs, retryLoad_first env b rt t m hm0] at h
      dsimp only at h
      by_cases he : m.includes.isEmpty
      · rw [if_pos he, hsub, hnb2 nb] at h
        cases hcont : addSubsLoop env mom rec rest subs0 nb rt t with
        | none =>
          rw [hcont] at h
          exact Option.noConfusion h
        | some r2 =>
          rw [hcont] at h
          injection h with h
          subst h
          exact ihl hrestS nb rt t r2 hcont
      · rw [if_neg he] at h
        cases hr1 : rec m.includes subs0 with
        | none =>
          rw [hr1] at h
          exact Option.noConfusion h
        | some rr =>
          rw [hr1] at h
          dsimp only at h
          have hrr := hrec m.includes rr hminc hr1
          rw [if_neg (by rw [hrr.1]; decide), hrr.2, hsub,
            hnb2 (if rr.ret = 0 then true else nb),
            if_neg (by rw [hrr.1]; decide)] at h
          cases hcont : addSubsLoop env mom rec rest subs0 nb rt t with
          | none =>
            rw [hcont] at h
            exact Option.noConfusion h
          | some r2 =>
            rw [hcont] at h
            injection h with h
            subst h
            exact ihl hrestS nb rt t r2 hcont

/-- When every bundle reachable from the request is tracked or already
subscribed, `add_subscriptions` returns `NO_NEW` (1) with the subscription
set unchanged, at every fuel at which it returns at all. -/
theorem add_subscriptions_no_new (env : Env) (mom : Manifest)
    (S subs0 : List String)
    (hS : ∀ b ∈ S, ∃ m, env.load_attempt b 0 = some m ∧ ∀ i ∈ m.includes, i ∈ S)
    (htr : ∀ b ∈ S, b ∈ env.tracked ∨ b ∈ subs0) :
    ∀ fuel bundles, (∀ b ∈ bundles, b ∈ S) →
      ∀ nb rt t r, add_subscriptions env mom fuel bundles subs0 nb rt t = some r →
        r.ret = (if nb then 0 else 1) ∧ r.subs = subs0 := by
  intro fuel
  induction fuel with
  | zero =>
    intro bundles hbs nb rt t r h
    rw [add_subscriptions] at h
    exact addSubsLoop_no_new env mom S subs0 hS htr _
      (fun incl r' _ hcontr => absurd hcontr (by simp)) bundles hbs nb rt t r h
  | succ n ih =>
    intro bundles hbs nb rt t r h
    rw [add_subscriptions] at h
    refine addSubsLoop_no_new env mom S subs0 hS htr _ ?_ bundles hbs nb rt t r h
    intro incl r' hincl hr'
    simpa using ih incl hincl false 0 10 r' hr'

/-- C6: when `add_subscriptions` finds every requested bundle — and every
bundle reachable through its includes — already tracked (the subscription
set is empty at install entry), it returns `NO_NEW` (1) with no subscription
added, and `install_bundles` surfaces `EBUNDLE_INSTALL` with an empty trace:
no file is staged or renamed. -/
theorem claim_C6_install_already_installed (env : Env) (mom : Manifest)
    (S bundles : List String) (fuel : Nat) (out : InstallOut)
    (hS : ∀ b ∈ S, (search_bundle_in_manifest mom b).isSome = true ∧
      ∃ m, env.load_attempt b 0 = some m ∧ ∀ i ∈ m.includes, i ∈ S)
    (htr : ∀ b ∈ S, b ∈ env.tracked)
    (hb : ∀ b ∈ bundles, b ∈ S)
    (hrun : install_bundles env bundles mom fuel = some out) :
    out.ret = EBUNDLE_INSTALL ∧ out.trace = [] ∧
    ∃ r, add_subscriptions env mom fuel bundles [] false 0 10 = some r ∧
      r.ret = 1 ∧ r.subs = [] := by
  have hS' : ∀ b ∈ S, ∃ m, env.load_attempt b 0 = some m ∧ ∀ i ∈ m.includes, i ∈ S :=
    fun b hbm => (hS b hbm).2
  have htr' : ∀ b ∈ S, b ∈ env.tracked ∨ b ∈ ([] : List String) :=
    fun b hbm => Or.inl (htr b hbm)
  unfold install_bundles at hrun
  cases ha : add_subscriptions env mom fuel bundles [] false 0 10 with
  | none =>
    rw [ha] at hrun
    exact Option.noConfusion hrun
  | some r =>
    rw [ha] at hrun
    dsimp only at hrun
    have hr := add_subscriptions_no_new env mom S [] hS' htr' fuel bundles hb
      false 0 10 r ha
    have hr1 : r.ret = 1 := by simpa using hr.1
    rw [if_pos (by rw [hr1]; decide)] at hrun
    injection hrun with hrun
    subst hrun
    exact ⟨rfl, rfl, r, rfl, hr1, hr.2⟩

/-- Manifest of the already-installed bundle `e`. -/
def meC6 : Manifest := { component := "e", version := 10 }

/-- MoM of the already-installed scenario. -/
def momC6 : Manifest :=
  { component := "MoM", version := 10,
    manifests := [{ filename := "e", hash := "he", last_change := 10 }] }

/-- Environment of the already-installed scenario: `e` is tracked. -/
def envC6 : Env :=
  { initRet := 0, networkOk := true, currentVersion := some 10, mom := some momC6,
    tracked := ["e"],
    load_sub := fun b => if b = "e" then some meC6 else none,
    load_attempt := fun b _ => if b = "e" then some meC6 else none,
    stageOk := fun _ => true, fixOk := fun _ => true, ignore := fun _ => false }

/-- Outcome of installing the already-installed bundle. -/
def outC6 : InstallOut := { ret := EBUNDLE_INSTALL, trace := [] }

/-- Witness for C6 at the already-installed scenario. -/
theorem claim_C6_witness :
    install_bundles envC6 ["e"] momC6 1 = some outC6 ∧
    (outC6.ret = EBUNDLE_INSTALL ∧ outC6.trace = [] ∧
     ∃ r, add_subscriptions envC6 momC6 1 ["e"] [] false 0 10 = some r ∧
       r.ret = 1 ∧ r.subs = []) :=
  ⟨by decide,
    claim_C6_install_already_installed envC6 momC6 ["e"] ["e"] 1 outC6
      (by
        intro b hbm
        simp at hbm
        subst hbm
        exact ⟨by decide, ⟨meC6, by decide, by decide⟩⟩)
      (by
        intro b hbm
        simp at hbm
        subst hbm
        decide)
      (fun b hbm => hbm)
      (by decide)⟩

/-- Staging-pass events: a staging event names a successful `do_staging` or
a `verify_fix_path` staging. -/
def isStagingEv (e : Event) : Prop :=
  (∃ p, e = Event.stage p) ∨ (∃ p, e = Event.fix p)

/-- Every event emitted by the staging loop — on success or on abort — is a
staging event. -/
theorem stageLoop_events (env : Env) (momFiles : List SwFile) :
    ∀ fs staged ev,
      (stageLoop env momFiles fs = .ok (staged, ev) ∨
        stageLoop env momFiles fs = .error ev) →
      ∀ e ∈ ev, isStagingEv e := by
  intro fs
  induction fs with
  | nil =>
    intro staged ev h e he
    rcases h with h | h
    · rw [stageLoop] at h
      injection h with h
      rw [← ((Prod.mk.injEq _ _ _ _).mp h).2] at he
      exact absurd he (List.not_mem_nil e)
    · rw [stageLoop] at h
      exact Except.noConfusion h
  | cons f rest ih =>
    intro staged ev h e he
    by_cases hskip : skipFile env f
    · rcases h with h | h
      · rw [stageLoop, if_pos hskip] at h
        cases hrest : stageLoop env momFiles rest with
        | ok pr =>
          rcases pr with ⟨l, ev1⟩
          rw [hrest] at h
          injection h with h
          rw [← ((Prod.mk.injEq _ _ _ _).mp h).2] at he
          exact ih l ev1 (Or.inl hrest) e he
        | error ev1 =>
          rw [hrest] at h
          exact Except.noConfusion h
      · rw [stageLoop, if_pos hskip] at h
        cases hrest : stageLoop env momFiles rest with
        | ok pr =>
          rcases pr with ⟨l, ev1⟩
          rw [hrest] at h
          exact Except.noConfusion h
        | error ev1 =>
          rw [hrest] at h
          injection h with h
          rw [← h] at he
          exact ih [] ev1 (Or.inr hrest) e he
    · by_cases hst : env.stageOk f.filename
      · rcases h with h | h
        · rw [stageLoop, if_neg hskip, if_pos hst] at h
          cases hrest : stageLoop env momFiles rest with
          | ok pr =>
            rcases pr with ⟨l, ev1⟩
            rw [hrest] at h
            injection h with h
            rw [← ((Prod.mk.injEq _ _ _ _).mp h).2] at he
            rcases List.mem_cons.mp he with rfl | he2
            · exact Or.inl ⟨f.filename, rfl⟩
            · exact ih l ev1 (Or.inl hrest) e he2
          | error ev1 =>
            rw [hrest] at h
            exact Except.noConfusion h
        · rw [stageLoop, if_neg hskip, if_pos hst] at h
          cases hrest : stageLoop env momFiles rest with
          | ok pr =>
            rcases pr with ⟨l, ev1⟩
            rw [hrest] at h
            exact Except.noConfusion h
          | error ev1 =>
            rw [hrest] at h
            injection h with h
            rw [← h] at he
            rcases List.mem_cons.mp he with rfl | he2
            · exact Or.inl ⟨f.filename, rfl⟩
            · exact ih [] ev1 (Or.inr hrest) e he2
      · by_cases hfx : verify_fix_path env f.filename momFiles
        · rcases h with h | h
          · rw [stageLoop, if_neg hskip, if_neg hst, if_pos hfx] at h
            cases hrest : stageLoop env momFiles rest with
            | ok pr =>
              rcases pr with ⟨l, ev1⟩
              rw [hrest] at h
              injection h with h
              rw [← ((Prod.mk.injEq _ _ _ _).mp h).2] at he
              rcases List.mem_cons.mp he with rfl | he2
              · exact Or.inr ⟨f.filename, rfl⟩
              · exact ih l ev1 (Or.inl hrest) e he2
            | error ev1 =>
              rw [hrest] at h
              exact Except.noConfusion h
          · rw [stageLoop, if_neg hskip, if_neg hst, if_pos hfx] at h
            cases hrest : stageLoop env momFiles rest with
            | ok pr =>
              rcases pr with ⟨l, ev1⟩
              rw [hrest] at h
              exact Except.noConfusion h
            | error ev1 =>
              rw [hrest] at h
              injection h with h
              rw [← h] at he
              rcases List.mem_cons.mp he with rfl | he2
              · exact Or.inr ⟨f.filename, rfl⟩
              · exact ih [] ev1 (Or.inr hrest) e he2
        · rcases h with h | h
          · rw [stageLoop, if_neg hskip, if_neg hst, if_neg hfx] at h
            exact Except.noConfusion h
          · rw [stageLoop, if_neg hskip, if_neg hst, if_neg hfx] at h
            injection h with h
            rw [← h] at he
            exact absurd he (List.not_mem_nil e)

/-- On a successful staging pass, every non-skipped input file was staged:
its `do_staging` or `verify_fix_path` event is in the emitted events. -/
theorem stageLoop_covers (env : Env) (momFiles : List SwFile) :
    ∀ fs staged ev, stageLoop env momFiles fs = .ok (staged, ev) →
      ∀ f ∈ fs, skipFile env f = false →
        Event.stage f.filename ∈ ev ∨ Event.fix f.filename ∈ ev := by
  intro fs
  induction fs with
  | nil =>
    intro staged ev h f hf
    exact absurd hf (List.not_mem_nil f)
  | cons g rest ih =>
    intro staged ev h f hf hfskip
    by_cases hskip : skipFile env g
    · rw [stageLoop, if_pos hskip] at h
      cases hrest : stageLoop env momFiles rest with
      | ok pr =>
        rcases pr with ⟨l, ev1⟩
        rw [hrest] at h
        injection h with h
        rw [← ((Prod.mk.injEq _ _ _ _).mp h).2]
        rcases List.mem_cons.mp hf with rfl | hf2
        · rw [hfskip] at hskip
          exact absurd hskip (by simp)
        · exact ih l ev1 hrest f hf2 hfskip
      | error ev1 =>
        rw [hrest] at h
        exact Except.noConfusion h
    · by_cases hst : env.stageOk g.filename
      · rw [stageLoop, if_neg hskip, if_pos hst] at h
        cases hrest : stageLoop env momFiles rest with
        | ok pr =>
          rcases pr with ⟨l, ev1⟩
          rw [hrest] at h
          injection h with h
          rw [← ((Prod.mk.injEq _ _ _ _).mp h).2]
          rcases List.mem_cons.mp hf with rfl | hf2
          · exact Or.inl (List.mem_cons_self _ _)
          · rcases ih l ev1 hrest f hf2 hfskip with h2 | h2
            · exact Or.inl (List.mem_cons_of_mem _ h2)
            · exact Or.inr (List.mem_cons_of_mem _ h2)
        | error ev1 =>
          rw [hrest] at h
          exact Except.noConfusion h
      · by_cases hfx : verify_fix_path env g.filename momFiles
        · rw [stageLoop, if_neg hskip, if_neg hst, if_pos hfx] at h
          cases hrest : stageLoop env momFiles rest with
          | ok pr =>
            rcases pr with ⟨l, ev1⟩
            rw [hrest] at h
            injection h with h
            rw [← ((Prod.mk.injEq _ _ _ _).mp h).2]
            rcases List.mem_cons.mp hf with rfl | hf2
            · exact Or.inr (List.mem_cons_self _ _)
            · rcases ih l ev1 hrest f hf2 hfskip with h2 | h2
              · exact Or.inl (List.mem_cons_of_mem _ h2)
              · exact Or.inr (List.mem_cons_of_mem _ h2)
          | error ev1 =>
            rw [hrest] at h
            exact Except.noConfusion h
        · rw [stageLoop, if_neg hskip, if_neg hst, if_neg hfx] at h
          exact Except.noConfusion h

/-- On a successful staging pass, every non-skipped file of the staged list
either has its `staging` field set or has an entry under its path in the
MoM's consolidated file list. -/
theorem stageLoop_staged_inv (env : Env) (momFiles : List SwFile) :
    ∀ fs staged ev, stageLoop env momFiles fs = .ok (staged, ev) →
      ∀ f ∈ staged, skipFile env f = false →
        f.staging.isSome = true ∨ f.filename ∈ momFiles.map SwFile.filename := by
  intro fs
  induction fs with
  | nil =>
    intro staged ev h f hf
    rw [stageLoop] at h
    injection h with h
    rw [← ((Prod.mk.injEq _ _ _ _).mp h).1] at hf
    exact absurd hf (List.not_mem_nil f)
  | cons g rest ih =>
    intro staged ev h f hf hfskip
    by_cases hskip : skipFile env g
    · rw [stageLoop, if_pos hskip] at h
      cases hrest : stageLoop env momFiles rest with
      | ok pr =>
        rcases pr with ⟨l, ev1⟩
        rw [hrest] at h
        injection h with h
        rw [← ((Prod.mk.injEq _ _ _ _).mp h).1] at hf
        rcases List.mem_cons.mp hf with rfl | hf2
        · rw [hfskip] at hskip
          exact absurd hskip (by simp)
        · exact ih l ev1 hrest f hf2 hfskip
      | error ev1 =>
        rw [hrest] at h
        exact Except.noConfusion h
    · by_cases hst : env.stageOk g.filename
      · rw [stageLoop, if_neg hskip, if_pos hst] at h
        cases hrest : stageLoop env momFiles rest with
        | ok pr =>
          rcases pr with ⟨l, ev1⟩
          rw [hrest] at h
          injection h with h
          rw [← ((Prod.mk.injEq _ _ _ _).mp h).1] at hf
          rcases List.mem_cons.mp hf with rfl | hf2
          · exact Or.inl rfl
          · exact ih l ev1 hrest f hf2 hfskip
        | error ev1 =>
          rw [hrest] at h
          exact Except.noConfusion h
      · by_cases hfx : verify_fix_path env g.filename momFiles
        · rw [stageLoop, if_neg hskip, if_neg hst, if_pos hfx] at h
          cases hrest : stageLoop env momFiles rest with
          | ok pr =>
            rcases pr with ⟨l, ev1⟩
            rw [hrest] at h
            injection h with h
            rw [← ((Prod.mk.injEq _ _ _ _).mp h).1] at hf
            rcases List.mem_cons.mp hf with rfl | hf2
            · refine Or.inr ?_
              have hany := (Bool.and_eq_true _ _).mp hfx |>.1
              obtain ⟨x, hx, hxe⟩ := List.any_eq_true.mp hany
              exact List.mem_map.mpr ⟨x, hx, of_decide_eq_true hxe⟩
            · exact ih l ev1 hrest f hf2 hfskip
          | error ev1 =>
            rw [hrest] at h
            exact Except.noConfusion h
        · rw [stageLoop, if_neg hskip, if_neg hst, if_neg hfx] at h
          exact Except.noConfusion h

/-- Every event of the rename pass is a rename or the NULL-lookup marker. -/
theorem renameLoop_events (env : Env) (momFiles : List SwFile) :
    ∀ fs e, e ∈ renameLoop env momFiles fs →
      (∃ p, e = Event.rename p) ∨ e = Event.renameNull := by
  intro fs
  induction fs with
  | nil =>
    intro e he
    rw [renameLoop] at he
    exact absurd he (List.not_mem_nil e)
  | cons f rest ih =>
    intro e he
    rw [renameLoop] at he
    by_cases hskip : skipFile env f
    · rw [if_pos hskip] at he
      exact ih e he
    · rw [if_neg hskip] at he
      cases hx : (if f.staging.isNone then search_file_in_manifest momFiles f.filename
          else some f) with
      | none =>
        rw [hx] at he
        rcases List.mem_cons.mp he with rfl | he2
        · exact Or.inr rfl
        · exact ih e he2
      | some g =>
        rw [hx] at he
        rcases List.mem_cons.mp he with rfl | he2
        · exact Or.inl ⟨g.filename, rfl⟩
        · exact ih e he2

/-- When every non-skipped file entering the rename pass is staged or
present in the MoM's consolidated file list, the NULL-lookup marker is
never emitted: `rename_staged_file_to_final` is never applied to a missing
lookup result. -/
theorem renameLoop_no_null (env : Env) (momFiles : List SwFile) :
    ∀ fs, (∀ f ∈ fs, skipFile env f = false →
        f.staging.isSome = true ∨ f.filename ∈ momFiles.map SwFile.filename) →
      Event.renameNull ∉ renameLoop env momFiles fs := by
  intro fs
  induction fs with
  | nil =>
    intro _
    rw [renameLoop]
    exact List.not_mem_nil _
  | cons f rest ih =>
    intro hinv
    have hrest : ∀ x ∈ rest, skipFile env x = false →
        x.staging.isSome = true ∨ x.filename ∈ momFiles.map SwFile.filename :=
      fun x hx => hinv x (List.mem_cons_of_mem f hx)
    rw [renameLoop]
    by_cases hskip : skipFile env f
    · rw [if_pos hskip]
      exact ih hrest
    · rw [if_neg hskip]
      have hf := hinv f (List.mem_cons_self f rest)
        (Bool.eq_false_iff.mpr hskip)
      cases hstg : f.staging with
      | some v =>
        rw [show (if (some v : Option String).isNone = true
            then search_file_in_manifest momFiles f.filename
            else some f) = some f by simp]
        intro hmem
        rcases List.mem_cons.mp hmem with hl | hl
        · exact Event.noConfusion hl
        · exact ih hrest hl
      | none =>
        rw [hstg] at hf
        have hmem : f.filename ∈ momFiles.map SwFile.filename := by
          rcases hf with hf | hf
          · exact absurd hf (by simp)
          · exact hf
        obtain ⟨x, hx, hxe⟩ := List.mem_map.mp hmem
        have hfind : (search_file_in_manifest momFiles f.filename).isSome = true := by
          rw [search_file_in_manifest]
          rw [List.find?_isSome]
          exact ⟨x, hx, decide_eq_true hxe⟩
        obtain ⟨g, hg⟩ := Option.isSome_iff_exists.mp hfind
        rw [show (if (none : Option String).isNone = true
            then search_file_in_manifest momFiles f.filename
            else some f) = some g by simp [hg]]
        intro hmem2
        rcases List.mem_cons.mp hmem2 with hl | hl
        · exact Event.noConfusion hl
        · exact ih hrest hl

/-- C10: in the rename pass of every `install_bundles` run, each non-skipped
file whose `staging` field is unset is successfully re-looked-up by filename
in the MoM's current consolidated file list, so
`rename_staged_file_to_final` is never applied to a missing (NULL) lookup
result — the model's `Event.renameNull` marker never appears in the trace. -/
theorem claim_C10_rename_lookup_never_null (env : Env) (bundles : List String)
    (mom : Manifest) (fuel : Nat) (out : InstallOut)
    (h : install_bundles env bundles mom fuel = some out) :
    Event.renameNull ∉ out.trace := by
  unfold install_bundles at h
  cases ha : add_subscriptions env mom fuel bundles [] false 0 10 with
  | none =>
    rw [ha] at h
    exact Option.noConfusion h
  | some r =>
    rw [ha] at h
    dsimp only at h
    by_cases hr0 : r.ret ≠ 0
    · rw [if_pos hr0] at h
      injection h with h
      subst h
      simp
    · rw [if_neg hr0] at h
      cases hrec1 : recurseAll env mom fuel r.subs [] [] with
      | fuelOut =>
        rw [hrec1] at h
        exact Option.noConfusion h
      | loadFail =>
        rw [hrec1] at h
        injection h with h
        subst h
        simp
      | ok tib =>
        rw [hrec1] at h
        dsimp only at h
        cases hrec2 : recurseAll env mom fuel
            (r.subs ++ env.tracked.filter fun t => decide (t ∉ r.subs)) [] [] with
        | fuelOut =>
          rw [hrec2] at h
          exact Option.noConfusion h
        | loadFail =>
          rw [hrec2] at h
          injection h with h
          subst h
          simp
        | ok subms =>
          rw [hrec2] at h
          dsimp only at h
          cases hst : stageLoop env (consolidate_files (files_from_bundles subms))
              (consolidate_files (files_from_bundles tib)) with
          | error ev =>
            rw [hst] at h
            injection h with h
            subst h
            intro hmem
            rcases stageLoop_events env _ _ [] ev (Or.inr hst) _ hmem with ⟨p, hp⟩ | ⟨p, hp⟩
            · exact Event.noConfusion hp
            · exact Event.noConfusion hp
          | ok pr =>
            rcases pr with ⟨staged, ev⟩
            rw [hst] at h
            injection h with h
            subst h
            intro hmem
            rcases List.mem_append.mp hmem with h1 | h1
            · rcases List.mem_append.mp h1 with h2 | h2
              · rcases stageLoop_events env _ _ staged ev (Or.inl hst) _ h2
                  with ⟨p, hp⟩ | ⟨p, hp⟩
                · exact Event.noConfusion hp
                · exact Event.noConfusion hp
              · exact renameLoop_no_null env _ staged
                  (stageLoop_staged_inv env _ _ staged ev hst) h2
            · simp at h1

/-- C4: in every `install_bundles` run the trace decomposes into staging
events, then rename events, then the tail: on success the tail is exactly
the `sync` barrier followed by `run_scripts`, and on failure there are no
renames and no tail — the rename pass (mutation of final paths) begins only
after staging has succeeded for every non-skipped file of the target set,
whose staging events all precede the renames. -/
theorem claim_C4_stage_before_rename_before_sync (env : Env)
    (bundles : List String) (mom : Manifest) (fuel : Nat) (out : InstallOut)
    (h : install_bundles env bundles mom fuel = some out) :
    ∃ s r t, out.trace = s ++ r ++ t ∧
      (∀ e ∈ s, isStagingEv e) ∧
      (∀ e ∈ r, ∃ p, e = Event.rename p) ∧
      ((out.ret = 0 ∧ t = [Event.sync, Event.scripts]) ∨
        (out.ret ≠ 0 ∧ r = [] ∧ t = [])) ∧
      (∀ f ∈ out.targets, skipFile env f = false →
        out.ret = 0 → Event.stage f.filename ∈ s ∨ Event.fix f.filename ∈ s) := by
  unfold install_bundles at h
  cases ha : add_subscriptions env mom fuel bundles [] false 0 10 with
  | none =>
    rw [ha] at h
    exact Option.noConfusion h
  | some r =>
    rw [ha] at h
    dsimp only at h
    by_cases hr0 : r.ret ≠ 0
    · rw [if_pos hr0] at h
      injection h with h
      subst h
      exact ⟨[], [], [], rfl, fun e he => absurd he (List.not_mem_nil e),
        fun e he => absurd he (List.not_mem_nil e),
        Or.inr ⟨by decide, rfl, rfl⟩,
        fun f hf => absurd hf (List.not_mem_nil f)⟩
    · rw [if_neg hr0] at h
      cases hrec1 : recurseAll env mom fuel r.subs [] [] with
      | fuelOut =>
        rw [hrec1] at h
        exact Option.noConfusion h
      | loadFail =>
        rw [hrec1] at h
        injection h with h
        subst h
        exact ⟨[], [], [], rfl, fun e he => absurd he (List.not_mem_nil e),
          fun e he => absurd he (List.not_mem_nil e),
          Or.inr ⟨by decide, rfl, rfl⟩,
          fun f hf => absurd hf (List.not_mem_nil f)⟩
      | ok tib =>
        rw [hrec1] at h
        dsimp only at h
        cases hrec2 : recurseAll env mom fuel
            (r.subs ++ env.tracked.filter fun t => decide (t ∉ r.subs)) [] [] with
        | fuelOut =>
          rw [hrec2] at h
          exact Option.noConfusion h
        | loadFail =>
          rw [hrec2] at h
          injection h with h
          subst h
          exact ⟨[], [], [], rfl, fun e he => absurd he (List.not_mem_nil e),
            fun e he => absurd he (List.not_mem_nil e),
            Or.inr ⟨by decide, rfl, rfl⟩,
            fun f hf => absurd hf (List.not_mem_nil f)⟩
        | ok subms =>
          rw [hrec2] at h
          dsimp only at h
          cases hst : stageLoop env (consolidate_files (files_from_bundles subms))
              (consolidate_files (files_from_bundles tib)) with
          | error ev =>
            rw [hst] at h
            injection h with h
            subst h
            refine ⟨ev, [], [], by simp, ?_, fun e he => absurd he (List.not_mem_nil e),
              Or.inr ⟨show EBUNDLE_INSTALL ≠ (0 : Int) by decide, rfl, rfl⟩, ?_⟩
            · exact fun e he => stageLoop_events env _ _ [] ev (Or.inr hst) e he
            · intro f hf hfs hret
              exact absurd hret (show EBUNDLE_INSTALL ≠ (0 : Int) by decide)
          | ok pr =>
            rcases pr with ⟨staged, ev⟩
            rw [hst] at h
            injection h with h
            subst h
            refine ⟨ev, renameLoop env (consolidate_files (files_from_bundles subms)) staged,
              [Event.sync, Event.scripts], rfl, ?_, ?_, Or.inl ⟨rfl, rfl⟩, ?_⟩
            · exact fun e he => stageLoop_events env _ _ staged ev (Or.inl hst) e he
            · intro e he
              rcases renameLoop_events env _ staged e he with hp | hp
              · exact hp
              · subst hp
                exact absurd he (renameLoop_no_null env _ staged
                  (stageLoop_staged_inv env _ _ staged ev hst))
            · intro f hf hfs _
              exact stageLoop_covers env _ _ staged ev hst f hf hfs

/-- Manifest of bundle `e` for the successful install scenario. -/
def meI : Manifest :=
  { component := "e", version := 10,
    files := [{ filename := "/usr/bin/ed", hash := "h1", last_change := 10 },
              { filename := "/usr/share/clear/bundles/e", hash := "h2",
                last_change := 10 }] }

/-- MoM of the successful install scenario. -/
def momI : Manifest :=
  { component := "MoM", version := 10,
    manifests := [{ filename := "e", hash := "he", last_change := 10 }] }

/-- Environment of the successful install scenario: nothing tracked yet,
every load and staging succeeds. -/
def envI : Env :=
  { initRet := 0, networkOk := true, currentVersion := some 10, mom := some momI,
    tracked := [],
    load_sub := fun b => if b = "e" then some meI else none,
    load_attempt := fun b _ => if b = "e" then some meI else none,
    stageOk := fun _ => true, fixOk := fun _ => true, ignore := fun _ => false }

/-- Outcome of the successful install: stage both files, rename both, sync,
run scripts. -/
def outI : InstallOut :=
  { ret := 0,
    trace := [Event.stage "/usr/bin/ed", Event.stage "/usr/share/clear/bundles/e",
              Event.rename "/usr/bin/ed", Event.rename "/usr/share/clear/bundles/e",
              Event.sync, Event.scripts],
    targets := [{ filename := "/usr/bin/ed", hash := "h1", last_change := 10 },
                { filename := "/usr/share/clear/bundles/e", hash := "h2",
                  last_change := 10 }] }

/-- Witness for C4 at the successful install scenario. -/
theorem claim_C4_witness :
    install_bundles envI ["e"] momI 2 = some outI ∧
    (∃ s r t, outI.trace = s ++ r ++ t ∧
      (∀ e ∈ s, isStagingEv e) ∧
      (∀ e ∈ r, ∃ p, e = Event.rename p) ∧
      ((outI.ret = 0 ∧ t = [Event.sync, Event.scripts]) ∨
        (outI.ret ≠ 0 ∧ r = [] ∧ t = [])) ∧
      (∀ f ∈ outI.targets, skipFile envI f = false →
        outI.ret = 0 → Event.stage f.filename ∈ s ∨ Event.fix f.filename ∈ s)) :=
  ⟨by decide, claim_C4_stage_before_rename_before_sync envI ["e"] momI 2 outI (by decide)⟩

/-- Witness for C10 at the successful install scenario. -/
theorem claim_C10_witness :
    install_bundles envI ["e"] momI 2 = some outI ∧
    Event.renameNull ∉ outI.trace :=
  ⟨by decide, claim_C10_rename_lookup_never_null envI ["e"] momI 2 outI (by decide)⟩

/-- Environment in which init, network and version discovery succeed but
the MoM cannot be loaded after retries: `load_mom` yields nothing. -/
def envC7 : Env :=
  { initRet := 0, networkOk := true, currentVersion := some 10, mom := none,
    tracked := ["x"],
    load_sub := fun _ => none,
    load_attempt := fun _ _ => none,
    stageOk := fun _ => false, fixOk := fun _ => false, ignore := fun _ => false }

/-- C7 (evaluation at the failing input): when the MoM cannot be loaded,
`remove_bundle` and `install_bundles_frontend` report `EMOM_NOTFOUND` with
no filesystem mutation, but `list_installable_bundles` executes
`return ret` with `ret` still holding `swupd_init`'s successful 0 — it
reports success instead of `EMOM_NOTFOUND`. -/
theorem claim_C7_list_returns_stale_success :
    list_installable_bundles envC7 = (0, []) ∧
    (0 : Int) ≠ EMOM_NOTFOUND ∧
    remove_bundle envC7 1 "x" =
      some { ret := EMOM_NOTFOUND, unlinked := [], markerRemoved := false } ∧
    install_bundles_frontend envC7 1 ["x"] =
      some { ret := EMOM_NOTFOUND, trace := [] } := by
  decide
